import Mathlib

/-!
# A shallow embedding of `lencode` (length-prefixed message framing)

This file embeds the Go package `lencode` (file `lencode.go`) in Lean 4 and
proves the properties its specification states about it.

Modelling choices, fixed once and used throughout:

* A byte stream (the contents of an `io.Reader` / the bytes accumulated in an
  `io.Writer`) is a `List Nat`; each element stands for one byte.
* The decoder's source is held inside the `Decoder` structure (field `stream`):
  a read removes the consumed bytes from the front of that list, which is
  exactly the behaviour of `bytes.Reader` / `bytes.Buffer` used by the
  package's tests.  "Performs no read" is therefore visible as "the `stream`
  field (indeed the whole state) is unchanged".
* The encoder's sink is an in-memory byte list (field `sink`); like a
  `bytes.Buffer`, writes to it always succeed.
* `io.ReadFull` against such an in-memory reader is the function `ReadFull`
  below: it succeeds when enough bytes are available, reports `eof` (Go's
  `io.EOF`) when the reader is empty and at least one byte was requested, and
  `unexpectedEOF` (Go's `io.ErrUnexpectedEOF`) when the reader is nonempty but
  too short.
* Go errors are the inductive `DErr` / `EErr`; an instance's sticky error
  field `err error` becomes `err : Option DErr` (resp. `Option EErr`).
* `DecodeInto`'s slice expression `b[:d.pendingLen]` panics in Go when
  `d.pendingLen > cap(b)`.  Buffers are modelled as lists (so `len = cap`),
  and the panic is surfaced as the `none` result of
  `Decoder.DecodeInto : Decoder → List Nat → Option (Decoder × Except DErr (List Nat))`;
  every non-panicking execution yields `some`.  `Decoder.Decode` gets the same
  `Option` wrapper because it calls `DecodeInto`.
-/

namespace Lencode

/-- The byte orders accepted by `EndianOpt` (`binary.BigEndian`,
`binary.LittleEndian`). `binary.BigEndian` is the default. -/
inductive ByteOrder where
  | big
  | little
deriving DecidableEq

/-- `var defaultSeparator = []byte{'l', 'e', 'n', 'c'}`. -/
def defaultSeparator : List Nat := [108, 101, 110, 99]

/-- `math.MaxUint32`. -/
def MaxUint32 : Nat := 4294967295

/-- `o.PutUint32`: the four bytes of `n`'s unsigned 32-bit representation in
byte order `o` (most significant byte first for `big`). -/
def putUint32 (o : ByteOrder) (n : Nat) : List Nat :=
  match o with
  | .big => [n / 2 ^ 24 % 256, n / 2 ^ 16 % 256, n / 2 ^ 8 % 256, n % 256]
  | .little => [n % 256, n / 2 ^ 8 % 256, n / 2 ^ 16 % 256, n / 2 ^ 24 % 256]

/-- `o.Uint32`: read an unsigned 32-bit integer from the first four bytes of
`b` in byte order `o`.  In the embedding it is only applied to lists holding
exactly four bytes. -/
def toUint32 (o : ByteOrder) (b : List Nat) : Nat :=
  match o, b with
  | .big, b0 :: b1 :: b2 :: b3 :: _ => b0 * 2 ^ 24 + b1 * 2 ^ 16 + b2 * 2 ^ 8 + b3
  | .little, b0 :: b1 :: b2 :: b3 :: _ => b3 * 2 ^ 24 + b2 * 2 ^ 16 + b1 * 2 ^ 8 + b0
  | _, _ => 0

/-- Decoder-side errors.  `eof` is Go's `io.EOF` (clean end of stream),
`unexpectedEOF` is `io.ErrUnexpectedEOF`, `sepMismatch` is
`separatorMismatchErr`, `bufTooSmall` is the
`"Buffer not large enough for next message"` error. -/
inductive DErr where
  | eof
  | unexpectedEOF
  | sepMismatch
  | bufTooSmall
deriving DecidableEq

/-- Encoder-side errors.  The in-memory sink cannot fail, so the only error
the embedded encoder can produce is the
`"Message too long to encode length in 4 bytes"` error. -/
inductive EErr where
  | oversized
deriving DecidableEq

/-- `io.ReadFull(r, buf)` with `n = len(buf)` against an in-memory reader
holding `s`: returns the bytes read and the rest of the reader, or the Go
error `io.ReadFull` reports (`io.EOF` when no byte was available,
`io.ErrUnexpectedEOF` when some but not all were). -/
def ReadFull (s : List Nat) (n : Nat) : Except DErr (List Nat × List Nat) :=
  if n ≤ s.length then .ok (s.take n, s.drop n)
  else if s.length = 0 then .error .eof
  else .error .unexpectedEOF

/-- The Go `Decoder` struct.  `stream` is the remaining content of the wrapped
`io.Reader` `r`; `pendingPfx`/`pendingLen` are the Go fields
`pendingPrefix`/`pendingLen` (renamed to satisfy naming constraints of this
development).  The 4-byte scratch buffer `prefixBuf` needs no counterpart:
reads land directly in the result of `ReadFull`. -/
structure Decoder where
  stream : List Nat
  separator : List Nat
  byteOrder : ByteOrder
  err : Option DErr
  pendingPfx : Bool
  pendingLen : Nat
deriving DecidableEq

/-- `NewDecoder` with the wrapped reader holding `src`.  A `nil` separator
(`SeparatorOpt(nil)`) is the empty list: the encoder writes no bytes for it
and the decoder compares no bytes against it, exactly as in Go. -/
def NewDecoder (sep : List Nat) (o : ByteOrder) (src : List Nat) : Decoder :=
  { stream := src, separator := sep, byteOrder := o,
    err := none, pendingPfx := false, pendingLen := 0 }

/-- `(*Decoder).readPrefix` (renamed).  Returns the updated decoder and the
returned `error` value. -/
def Decoder.readPfx (d : Decoder) : Decoder × Option DErr :=
  match d.err with
  | some e => (d, some e)
  | none =>
    if d.pendingPfx then (d, none)
    else
      match ReadFull d.stream (d.separator.length + 4) with
      | .error e =>
          ({ d with err := some e,
                    stream := d.stream.drop (d.separator.length + 4) }, some e)
      | .ok (pre, rest) =>
          -- Go: `if len(d.separator) > 0 { if !bytes.Equal(...) { ... } }`
          if 0 < d.separator.length ∧ pre.take d.separator.length ≠ d.separator then
            ({ d with err := some .sepMismatch, stream := rest }, some .sepMismatch)
          else
            ({ d with stream := rest, pendingPfx := true,
                      pendingLen := toUint32 d.byteOrder (pre.drop d.separator.length) },
             none)

/-- `(*Decoder).DecodeInto`.  The result is `none` when the Go code panics on
the slice `b[:d.pendingLen]` (possible because the buffer-size guard is
`d.pendingLen < len(b)`); otherwise `some (d', r)` where `r` carries either
the error returned or the content of the caller's buffer after the call
(the payload in its first `pendingLen` positions, the buffer's old bytes
after that). -/
def Decoder.DecodeInto (d : Decoder) (b : List Nat) : Option (Decoder × Except DErr (List Nat)) :=
  match Decoder.readPfx d with
  | (d1, some e) => some (d1, .error e)
  | (d1, none) =>
    if d1.pendingLen < b.length then
      some ({ d1 with err := some .bufTooSmall }, .error .bufTooSmall)
    else if b.length < d1.pendingLen then
      -- `b[:d.pendingLen]` is out of range: run-time panic in Go
      none
    else
      match ReadFull d1.stream d1.pendingLen with
      | .error e =>
          -- Go: `if err == io.EOF { err = io.ErrUnexpectedEOF }`
          let e' := if e = .eof then DErr.unexpectedEOF else e
          some ({ d1 with err := some e',
                          stream := d1.stream.drop d1.pendingLen }, .error e')
      | .ok (payload, rest) =>
          some ({ d1 with stream := rest, pendingPfx := false, pendingLen := 0 },
                .ok (payload ++ b.drop d1.pendingLen))

/-- `(*Decoder).Decode`: read the header, allocate a buffer of exactly the
pending length (`make([]byte, d.pendingLen)`), decode into it. -/
def Decoder.Decode (d : Decoder) : Option (Decoder × Except DErr (List Nat)) :=
  match Decoder.readPfx d with
  | (d1, some e) => some (d1, .error e)
  | (d1, none) =>
    match Decoder.DecodeInto d1 (List.replicate d1.pendingLen 0) with
    | none => none
    | some (d2, .error e) => some (d2, .error e)
    | some (d2, .ok out) => some (d2, .ok out)

/-- `(*Decoder).NextLen`. -/
def Decoder.NextLen (d : Decoder) : Decoder × Except DErr Nat :=
  match d.err with
  | some e => (d, .error e)
  | none =>
    if !d.pendingPfx then
      match Decoder.readPfx d with
      | (d1, some e) => (d1, .error e)
      | (d1, none) => (d1, .ok d1.pendingLen)
    else
      (d, .ok d.pendingLen)

/-- The Go `Encoder` struct, with the accumulated bytes of its in-memory sink
in `sink`. -/
structure Encoder where
  sink : List Nat
  separator : List Nat
  byteOrder : ByteOrder
  err : Option EErr
deriving DecidableEq

/-- `NewEncoder` over an empty in-memory sink. -/
def NewEncoder (sep : List Nat) (o : ByteOrder) : Encoder :=
  { sink := [], separator := sep, byteOrder := o, err := none }

/-- `(*Encoder).write`: append to the sink unless the encoder is already
poisoned.  An in-memory sink never fails, so no new error can arise here. -/
def Encoder.write (e : Encoder) (b : List Nat) : Encoder :=
  match e.err with
  | some _ => e
  | none => { e with sink := e.sink ++ b }

/-- `(*Encoder).Encode`.  Returns the updated encoder and the returned
`error` value. -/
def Encoder.Encode (e : Encoder) (msg : List Nat) : Encoder × Option EErr :=
  match e.err with
  | some err => (e, some err)
  | none =>
    if MaxUint32 < msg.length then
      ({ e with err := some .oversized }, some .oversized)
    else
      let e1 := if e.separator ≠ [] then Encoder.write e e.separator else e
      let e2 := Encoder.write e1 (putUint32 e.byteOrder msg.length)
      let e3 := Encoder.write e2 msg
      (e3, e3.err)

/-- `Encode` each message of `msgs` in order on the same instance. -/
def Encoder.EncodeAll (e : Encoder) (msgs : List (List Nat)) : Encoder :=
  match msgs with
  | [] => e
  | m :: ms => Encoder.EncodeAll (Encoder.Encode e m).1 ms

/-- One frame as written by `Encode`: separator (empty when absent), 4-byte
length, payload. -/
def frame (sep : List Nat) (o : ByteOrder) (m : List Nat) : List Nat :=
  sep ++ putUint32 o m.length ++ m

/-- The concatenation of the frames of `msgs`. -/
def frames (sep : List Nat) (o : ByteOrder) : List (List Nat) → List Nat
  | [] => []
  | m :: ms => frame sep o m ++ frames sep o ms

/-- Call `Decode` `n` times, collecting the successfully decoded payloads in
order; stop early at the first error or panic. -/
def Decoder.DecodeN (d : Decoder) (n : Nat) : Decoder × List (List Nat) :=
  match n with
  | 0 => (d, [])
  | n + 1 =>
    match Decoder.Decode d with
    | some (d1, .ok m) =>
        let r := Decoder.DecodeN d1 n
        (r.1, m :: r.2)
    | some (d1, .error _) => (d1, [])
    | none => (d, [])

end Lencode

namespace Lencode

/-! ## Helper lemmas about the length field -/

theorem putUint32_length (o : ByteOrder) (n : Nat) : (putUint32 o n).length = 4 := by
  cases o <;> rfl

theorem toUint32_putUint32 (o : ByteOrder) (n : Nat) (h : n < 2 ^ 32) :
    toUint32 o (putUint32 o n) = n := by
  cases o <;> simp only [toUint32, putUint32] <;> omega

theorem putUint32_inj (o : ByteOrder) (m n : Nat) (hm : m < 2 ^ 32) (hn : n < 2 ^ 32)
    (h : putUint32 o m = putUint32 o n) : m = n := by
  have h1 := toUint32_putUint32 o m hm
  have h2 := toUint32_putUint32 o n hn
  rw [← h1, ← h2, h]

/-! ## Helper lemmas: one `readPrefix` step -/

theorem readPfx_frame (sep b rest : List Nat) (o : ByteOrder) (hb : b.length = 4) :
    Decoder.readPfx ⟨sep ++ b ++ rest, sep, o, none, false, 0⟩ =
      (⟨rest, sep, o, none, true, toUint32 o b⟩, none) := by
  have hsb : (sep ++ b).length = sep.length + 4 := by simp [hb]
  have hlen : sep.length + 4 ≤ (sep ++ b ++ rest).length := by simp [hb]
  have hrf : ReadFull (sep ++ b ++ rest) (sep.length + 4) = .ok (sep ++ b, rest) := by
    unfold ReadFull
    rw [if_pos hlen, List.take_left' hsb, List.drop_left' hsb]
  have hns : ¬(0 < sep.length ∧ (sep ++ b).take sep.length ≠ sep) := by
    simp [List.take_left]
  simp only [Decoder.readPfx, hrf]
  rw [if_neg hns, List.drop_left]
  rfl

theorem readPfx_eof (sep s : List Nat) (o : ByteOrder) (hs : s = []) :
    Decoder.readPfx ⟨s, sep, o, none, false, 0⟩ =
      (⟨[], sep, o, some .eof, false, 0⟩, some .eof) := by
  subst hs
  have h1 : ¬ sep.length + 4 ≤ ([] : List Nat).length := by simp
  simp [Decoder.readPfx, ReadFull, h1]

theorem readPfx_truncated (sep s : List Nat) (o : ByteOrder) (h0 : s ≠ [])
    (hs : s.length < sep.length + 4) :
    Decoder.readPfx ⟨s, sep, o, none, false, 0⟩ =
      (⟨[], sep, o, some .unexpectedEOF, false, 0⟩, some .unexpectedEOF) := by
  have h1 : ¬ sep.length + 4 ≤ s.length := by omega
  have h2 : s.length ≠ 0 := by
    intro h
    exact h0 (List.eq_nil_of_length_eq_zero h)
  simp [Decoder.readPfx, ReadFull, h1, h2, List.drop_eq_nil_of_le (by omega : s.length ≤ sep.length + 4)]

theorem readPfx_mismatch (sep b rest : List Nat) (o : ByteOrder)
    (hb : b.length = sep.length + 4) (hsep : 0 < sep.length)
    (hne : b.take sep.length ≠ sep) :
    Decoder.readPfx ⟨b ++ rest, sep, o, none, false, 0⟩ =
      (⟨rest, sep, o, some .sepMismatch, false, 0⟩, some .sepMismatch) := by
  have hlen : sep.length + 4 ≤ (b ++ rest).length := by simp [hb]
  have hrf : ReadFull (b ++ rest) (sep.length + 4) = .ok (b, rest) := by
    unfold ReadFull
    rw [if_pos hlen, List.take_left' hb, List.drop_left' hb]
  have hc : 0 < sep.length ∧ b.take sep.length ≠ sep := ⟨hsep, hne⟩
  simp only [Decoder.readPfx, hrf]
  rw [if_pos hc]
  rfl

/-! ## Helper lemmas: consuming a pending payload -/

theorem decodeInto_pending (sep payload rest buf : List Nat) (o : ByteOrder) (L : Nat)
    (hL : payload.length = L) (hbuf : buf.length = L) :
    Decoder.DecodeInto ⟨payload ++ rest, sep, o, none, true, L⟩ buf =
      some (⟨rest, sep, o, none, false, 0⟩, .ok payload) := by
  have hrp : Decoder.readPfx ⟨payload ++ rest, sep, o, none, true, L⟩ =
      (⟨payload ++ rest, sep, o, none, true, L⟩, none) := rfl
  have hrf : ReadFull (payload ++ rest) L = .ok (payload, rest) := by
    unfold ReadFull
    rw [if_pos (by simp [hL] : L ≤ (payload ++ rest).length),
      List.take_left' hL, List.drop_left' hL]
  have hdrop : buf.drop L = [] := List.drop_eq_nil_of_le (by omega)
  simp only [Decoder.DecodeInto, hrp, hrf]
  rw [if_neg (by omega : ¬ L < buf.length), if_neg (by omega : ¬ buf.length < L)]
  simp [hdrop]

theorem decodeInto_truncated (sep rest buf : List Nat) (o : ByteOrder) (L : Nat)
    (hbuf : buf.length = L) (htr : rest.length < L) :
    Decoder.DecodeInto ⟨rest, sep, o, none, true, L⟩ buf =
      some (⟨[], sep, o, some .unexpectedEOF, true, L⟩, .error .unexpectedEOF) := by
  have hrp : Decoder.readPfx ⟨rest, sep, o, none, true, L⟩ =
      (⟨rest, sep, o, none, true, L⟩, none) := rfl
  have hdrop : rest.drop L = [] := List.drop_eq_nil_of_le (by omega)
  rcases Nat.eq_zero_or_pos rest.length with h0 | h0
  · have hrf : ReadFull rest L = .error .eof := by
      unfold ReadFull
      rw [if_neg (by omega), if_pos h0]
    simp only [Decoder.DecodeInto, hrp, hrf]
    rw [if_neg (by omega : ¬ L < buf.length), if_neg (by omega : ¬ buf.length < L)]
    simp [hdrop]
  · have hrf : ReadFull rest L = .error .unexpectedEOF := by
      unfold ReadFull
      rw [if_neg (by omega), if_neg (by omega)]
    simp only [Decoder.DecodeInto, hrp, hrf]
    rw [if_neg (by omega : ¬ L < buf.length), if_neg (by omega : ¬ buf.length < L)]
    simp [hdrop]

theorem decode_frame (sep rest m : List Nat) (o : ByteOrder) (hm : m.length ≤ MaxUint32) :
    Decoder.Decode ⟨frame sep o m ++ rest, sep, o, none, false, 0⟩ =
      some (⟨rest, sep, o, none, false, 0⟩, .ok m) := by
  have hm32 : m.length < 2 ^ 32 := by
    unfold MaxUint32 at hm
    omega
  have hstream : frame sep o m ++ rest = sep ++ putUint32 o m.length ++ (m ++ rest) := by
    simp [frame]
  rw [hstream]
  have h1 := readPfx_frame sep (putUint32 o m.length) (m ++ rest) o (putUint32_length o m.length)
  rw [toUint32_putUint32 o m.length hm32] at h1
  simp only [Decoder.Decode, h1]
  rw [decodeInto_pending sep m rest (List.replicate m.length 0) o m.length rfl (by simp)]

theorem decode_eof (sep : List Nat) (o : ByteOrder) :
    Decoder.Decode ⟨[], sep, o, none, false, 0⟩ =
      some (⟨[], sep, o, some .eof, false, 0⟩, .error .eof) := by
  simp only [Decoder.Decode, readPfx_eof sep [] o rfl]

/-! ## Helper lemmas: `NextLen` -/

theorem nextLen_fresh_frame (sep b rest : List Nat) (o : ByteOrder) (hb : b.length = 4) :
    Decoder.NextLen ⟨sep ++ b ++ rest, sep, o, none, false, 0⟩ =
      (⟨rest, sep, o, none, true, toUint32 o b⟩, .ok (toUint32 o b)) := by
  simp only [Decoder.NextLen, readPfx_frame sep b rest o hb]
  rfl

theorem nextLen_pending (sep s : List Nat) (o : ByteOrder) (L : Nat) :
    Decoder.NextLen ⟨s, sep, o, none, true, L⟩ = (⟨s, sep, o, none, true, L⟩, .ok L) := rfl

/-! ## Helper lemmas: a stored error replays on every entry point -/

theorem readPfx_of_err (d : Decoder) (e : DErr) (h : d.err = some e) :
    Decoder.readPfx d = (d, some e) := by
  simp only [Decoder.readPfx, h]

theorem nextLen_of_err (d : Decoder) (e : DErr) (h : d.err = some e) :
    Decoder.NextLen d = (d, .error e) := by
  simp only [Decoder.NextLen, h]

theorem decodeInto_of_err (d : Decoder) (e : DErr) (b : List Nat) (h : d.err = some e) :
    Decoder.DecodeInto d b = some (d, .error e) := by
  simp only [Decoder.DecodeInto, readPfx_of_err d e h]

theorem decode_of_err (d : Decoder) (e : DErr) (h : d.err = some e) :
    Decoder.Decode d = some (d, .error e) := by
  simp only [Decoder.Decode, readPfx_of_err d e h]

/-! ## Helper lemmas: every produced error is stored in the instance -/

theorem readPfx_err_stored {d d' : Decoder} {e : DErr}
    (h : Decoder.readPfx d = (d', some e)) : d'.err = some e := by
  unfold Decoder.readPfx at h
  split at h
  next e0 heq =>
    injection h with h2 h3
    injection h3 with h4
    rw [← h2, heq, h4]
  next heq =>
    split at h
    · simp at h
    · split at h
      next e0 hrf =>
        injection h with h2 h3
        injection h3 with h4
        rw [← h2]
        simp [h4]
      next pre rest hrf =>
        split at h
        · injection h with h2 h3
          injection h3 with h4
          rw [← h2]
          simp [h4]
        · simp at h

theorem decodeInto_err_stored {d d' : Decoder} {e : DErr} {b : List Nat}
    (h : Decoder.DecodeInto d b = some (d', .error e)) : d'.err = some e := by
  unfold Decoder.DecodeInto at h
  split at h
  next d1 e1 heq =>
    injection h with h2
    injection h2 with h3 h4
    injection h4 with h5
    rw [← h3, ← h5]
    exact readPfx_err_stored heq
  next d1 heq =>
    split at h
    · injection h with h2
      injection h2 with h3 h4
      injection h4 with h5
      rw [← h3]
      simp [h5]
    · split at h
      · simp at h
      · split at h
        next e1 hrf =>
          injection h with h2
          injection h2 with h3 h4
          injection h4 with h5
          rw [← h3]
          simp [h5]
        next payload rest hrf =>
          simp at h

theorem decode_err_stored {d d' : Decoder} {e : DErr}
    (h : Decoder.Decode d = some (d', .error e)) : d'.err = some e := by
  unfold Decoder.Decode at h
  split at h
  next d1 e1 heq =>
    injection h with h2
    injection h2 with h3 h4
    injection h4 with h5
    rw [← h3, ← h5]
    exact readPfx_err_stored heq
  next d1 heq =>
    split at h
    · simp at h
    next d2 e1 hdi =>
      injection h with h2
      injection h2 with h3 h4
      injection h4 with h5
      rw [← h3, ← h5]
      exact decodeInto_err_stored hdi
    next d2 out hdi =>
      simp at h

theorem nextLen_err_stored {d d' : Decoder} {e : DErr}
    (h : Decoder.NextLen d = (d', .error e)) : d'.err = some e := by
  unfold Decoder.NextLen at h
  split at h
  next e0 heq =>
    injection h with h2 h3
    injection h3 with h4
    rw [← h2, heq, h4]
  next heq =>
    split at h
    · split at h
      next d1 e1 hrp =>
        injection h with h2 h3
        injection h3 with h4
        rw [← h2, ← h4]
        exact readPfx_err_stored hrp
      next d1 hrp =>
        simp at h
    · simp at h

/-! ## Helper lemmas: the encoder -/

theorem Encode_ok (e : Encoder) (m : List Nat) (he : e.err = none)
    (hm : m.length ≤ MaxUint32) :
    Encoder.Encode e m = ({ e with sink := e.sink ++ frame e.separator e.byteOrder m }, none) := by
  simp only [Encoder.Encode, he]
  rw [if_neg (by omega : ¬ MaxUint32 < m.length)]
  by_cases hs : e.separator = []
  · simp [Encoder.write, hs, frame, he]
  · simp [Encoder.write, hs, frame, he]

theorem EncodeAll_ok (msgs : List (List Nat)) (e : Encoder) (he : e.err = none)
    (hm : ∀ m ∈ msgs, m.length ≤ MaxUint32) :
    Encoder.EncodeAll e msgs =
      { e with sink := e.sink ++ frames e.separator e.byteOrder msgs } := by
  induction msgs generalizing e with
  | nil => simp [Encoder.EncodeAll, frames]
  | cons m ms ih =>
    unfold Encoder.EncodeAll
    rw [Encode_ok e m he (hm m (by simp))]
    rw [ih _ (by simp [he]) (fun m' h' => hm m' (by simp [h']))]
    simp [frames]

/-! ## Helper lemma: decoding a stream of frames -/

theorem decodeN_frames (sep : List Nat) (o : ByteOrder) (msgs : List (List Nat))
    (rest : List Nat) (hm : ∀ m ∈ msgs, m.length ≤ MaxUint32) :
    Decoder.DecodeN ⟨frames sep o msgs ++ rest, sep, o, none, false, 0⟩ msgs.length =
      (⟨rest, sep, o, none, false, 0⟩, msgs) := by
  induction msgs generalizing rest with
  | nil => simp [Decoder.DecodeN, frames]
  | cons m ms ih =>
    have hstream : frames sep o (m :: ms) ++ rest = frame sep o m ++ (frames sep o ms ++ rest) := by
      simp [frames]
    rw [List.length_cons, hstream]
    simp only [Decoder.DecodeN, decode_frame sep (frames sep o ms ++ rest) m o (hm m (by simp))]
    rw [ih rest (fun m' h' => hm m' (by simp [h']))]

/-! ## Claim theorems -/

/-- C1: for every byte sequence `m` with `0 ≤ len(m) ≤ 4294967295` and every
configuration (any separator — in particular the default one or the absent,
empty one — and either byte order), encoding `m` with an `Encoder` and then
decoding the resulting byte stream with a `Decoder` built with the same
configuration returns exactly `m`. -/
theorem encode_decode_round_trip (sep m : List Nat) (o : ByteOrder)
    (hm : m.length ≤ 4294967295) :
    Option.map Prod.snd
        (Decoder.Decode (NewDecoder sep o ((Encoder.Encode (NewEncoder sep o) m).1.sink))) =
      some (.ok m) := by
  rw [Encode_ok (NewEncoder sep o) m rfl hm]
  show Option.map Prod.snd (Decoder.Decode (NewDecoder sep o ([] ++ frame sep o m))) =
    some (.ok m)
  rw [List.nil_append]
  rw [show NewDecoder sep o (frame sep o m) = ⟨frame sep o m ++ [], sep, o, none, false, 0⟩ by
        rw [List.append_nil]
        rfl]
  rw [decode_frame sep [] m o hm]
  rfl

/-- Witness for C1: the default configuration, `m = [104, 105]`. -/
theorem encode_decode_round_trip_witness :
    ([104, 105] : List Nat).length ≤ 4294967295 ∧
    Option.map Prod.snd
        (Decoder.Decode (NewDecoder defaultSeparator .big
          ((Encoder.Encode (NewEncoder defaultSeparator .big) [104, 105]).1.sink))) =
      some (.ok [104, 105]) :=
  ⟨by decide, encode_decode_round_trip defaultSeparator [104, 105] .big (by decide)⟩

/-- C6: for every payload longer than 4294967295 bytes, `Encode` returns the
oversized-payload error, writes nothing to the sink, and every subsequent
`Encode` call on that instance returns the same error regardless of its
argument. -/
theorem encode_oversized (e : Encoder) (msg : List Nat) (he : e.err = none)
    (hlen : 4294967295 < msg.length) :
    (Encoder.Encode e msg).2 = some .oversized ∧
    (Encoder.Encode e msg).1.sink = e.sink ∧
    ∀ msg2 : List Nat, Encoder.Encode (Encoder.Encode e msg).1 msg2 =
      ((Encoder.Encode e msg).1, some .oversized) := by
  have h1 : Encoder.Encode e msg = ({ e with err := some .oversized }, some .oversized) := by
    simp only [Encoder.Encode, he]
    rw [if_pos (show MaxUint32 < msg.length from hlen)]
  rw [h1]
  exact ⟨rfl, rfl, fun msg2 => rfl⟩

/-- Witness for C6: a fresh default encoder and a payload of 4294967296 zero
bytes, followed by a second `Encode` call with payload `[7]`. -/
theorem encode_oversized_witness :
    (NewEncoder defaultSeparator .big).err = none ∧
    4294967295 < (List.replicate 4294967296 0).length ∧
    (Encoder.Encode (NewEncoder defaultSeparator .big) (List.replicate 4294967296 0)).2 =
      some .oversized ∧
    (Encoder.Encode (NewEncoder defaultSeparator .big) (List.replicate 4294967296 0)).1.sink =
      (NewEncoder defaultSeparator .big).sink ∧
    Encoder.Encode
        (Encoder.Encode (NewEncoder defaultSeparator .big) (List.replicate 4294967296 0)).1 [7] =
      ((Encoder.Encode (NewEncoder defaultSeparator .big) (List.replicate 4294967296 0)).1,
        some .oversized) := by
  have hlen : 4294967295 < (List.replicate 4294967296 0).length := by
    rw [List.length_replicate]
    omega
  have h := encode_oversized (NewEncoder defaultSeparator .big)
    (List.replicate 4294967296 0) rfl hlen
  exact ⟨rfl, hlen, h.1, h.2.1, h.2.2 [7]⟩

/-- C7: with a complete frame (4-byte length field `b`, of declared value
`toUint32 o b`, preceded by the decoder's separator and followed by at least
that many bytes) at the front of the source, `NextLen` called before
`Decode`/`DecodeInto` returns exactly the declared payload length while
consuming only the header (the payload `rest` is still the whole remaining
stream), and a second `NextLen` call without an intervening decode returns
the same value and leaves the state — in particular the stream — untouched. -/
theorem nextLen_peeks_without_consuming (sep b rest : List Nat) (o : ByteOrder)
    (hb : b.length = 4) (_hcomplete : toUint32 o b ≤ rest.length) :
    Decoder.NextLen (NewDecoder sep o (sep ++ b ++ rest)) =
        (⟨rest, sep, o, none, true, toUint32 o b⟩, .ok (toUint32 o b)) ∧
    Decoder.NextLen ⟨rest, sep, o, none, true, toUint32 o b⟩ =
        (⟨rest, sep, o, none, true, toUint32 o b⟩, .ok (toUint32 o b)) :=
  ⟨nextLen_fresh_frame sep b rest o hb, nextLen_pending sep rest o (toUint32 o b)⟩

/-- Witness for C7: default separator, big-endian, length field `[0,0,0,2]`,
payload `[7, 8]`. -/
theorem nextLen_peeks_without_consuming_witness :
    ([0, 0, 0, 2] : List Nat).length = 4 ∧
    toUint32 .big [0, 0, 0, 2] ≤ ([7, 8] : List Nat).length ∧
    Decoder.NextLen (NewDecoder defaultSeparator .big (defaultSeparator ++ [0, 0, 0, 2] ++ [7, 8])) =
        (⟨[7, 8], defaultSeparator, .big, none, true, toUint32 .big [0, 0, 0, 2]⟩,
          .ok (toUint32 .big [0, 0, 0, 2])) ∧
    Decoder.NextLen ⟨[7, 8], defaultSeparator, .big, none, true, toUint32 .big [0, 0, 0, 2]⟩ =
        (⟨[7, 8], defaultSeparator, .big, none, true, toUint32 .big [0, 0, 0, 2]⟩,
          .ok (toUint32 .big [0, 0, 0, 2])) := by
  have h := nextLen_peeks_without_consuming defaultSeparator [0, 0, 0, 2] [7, 8] .big rfl
    (by decide)
  exact ⟨rfl, by decide, h.1, h.2⟩

/-- C8: encoding payloads `m1, …, mk` (each at most 4294967295 bytes) in
order and then decoding the resulting stream with a same-configured decoder
yields `m1, …, mk` in the same order, and the decode call after the last
message returns clean end-of-stream. -/
theorem encode_decode_sequencing (sep : List Nat) (o : ByteOrder)
    (msgs : List (List Nat)) (hm : ∀ m ∈ msgs, m.length ≤ 4294967295) :
    (Decoder.DecodeN
        (NewDecoder sep o (Encoder.EncodeAll (NewEncoder sep o) msgs).sink) msgs.length).2
      = msgs ∧
    Option.map Prod.snd
        (Decoder.Decode
          (Decoder.DecodeN
            (NewDecoder sep o (Encoder.EncodeAll (NewEncoder sep o) msgs).sink) msgs.length).1)
      = some (.error .eof) := by
  have hsink : (Encoder.EncodeAll (NewEncoder sep o) msgs).sink = frames sep o msgs ++ [] := by
    rw [EncodeAll_ok msgs (NewEncoder sep o) rfl hm]
    simp [NewEncoder]
  rw [hsink]
  rw [show NewDecoder sep o (frames sep o msgs ++ []) =
        ⟨frames sep o msgs ++ [], sep, o, none, false, 0⟩ from rfl]
  rw [decodeN_frames sep o msgs [] hm]
  refine ⟨rfl, ?_⟩
  rw [decode_eof sep o]
  rfl

/-- Witness for C8: two messages `[1]` and `[2, 3]` with the default
configuration. -/
theorem encode_decode_sequencing_witness :
    (∀ m ∈ ([[1], [2, 3]] : List (List Nat)), m.length ≤ 4294967295) ∧
    (Decoder.DecodeN
        (NewDecoder defaultSeparator .big
          (Encoder.EncodeAll (NewEncoder defaultSeparator .big) [[1], [2, 3]]).sink)
        ([[1], [2, 3]] : List (List Nat)).length).2
      = [[1], [2, 3]] ∧
    Option.map Prod.snd
        (Decoder.Decode
          (Decoder.DecodeN
            (NewDecoder defaultSeparator .big
              (Encoder.EncodeAll (NewEncoder defaultSeparator .big) [[1], [2, 3]]).sink)
            ([[1], [2, 3]] : List (List Nat)).length).1)
      = some (.error .eof) := by
  have h := encode_decode_sequencing defaultSeparator .big [[1], [2, 3]] (by decide)
  exact ⟨by decide, h.1, h.2⟩

/-- A successful header read leaves a pending header; decoding into a buffer
then proceeds exactly as if `DecodeInto` were called on the post-header
state. -/
theorem decodeInto_after_readPfx {d d1 : Decoder} (b : List Nat)
    (h : Decoder.readPfx d = (d1, none)) (h1 : d1.err = none) (h2 : d1.pendingPfx = true) :
    Decoder.DecodeInto d b = Decoder.DecodeInto d1 b := by
  have hrp1 : Decoder.readPfx d1 = (d1, none) := by
    simp only [Decoder.readPfx, h1, h2]
    rfl
  simp only [Decoder.DecodeInto, h, hrp1]

/-- After a successful header read, `Decode` returns whatever decoding into
the freshly allocated exact-size buffer returns. -/
theorem decode_via_pending (d d1 d2 : Decoder) (out : List Nat)
    (h : Decoder.readPfx d = (d1, none))
    (hdi : Decoder.DecodeInto d1 (List.replicate d1.pendingLen 0) = some (d2, .ok out)) :
    Decoder.Decode d = some (d2, .ok out) := by
  simp only [Decoder.Decode, h, hdi]

/-- C5: a decoder error is latched.  First part: with any stored error `e`,
`NextLen`, `Decode` and `DecodeInto` all return exactly `(d, error e)` — the
state, in particular the remaining source, is untouched, so no further read
happens.  Remaining parts: whenever any of the three entry points returns an
error, that error has been stored in the returned decoder state, so later
calls replay it.  Both parts hold for every `DErr`; restricted to errors
other than clean end-of-stream this is exactly the claim. -/
theorem decoder_error_latched (d : Decoder) (e : DErr) :
    (d.err = some e →
      Decoder.NextLen d = (d, .error e) ∧
      Decoder.Decode d = some (d, .error e) ∧
      ∀ b : List Nat, Decoder.DecodeInto d b = some (d, .error e)) ∧
    (∀ d' : Decoder, Decoder.NextLen d = (d', .error e) → d'.err = some e) ∧
    (∀ d' : Decoder, Decoder.Decode d = some (d', .error e) → d'.err = some e) ∧
    (∀ (d' : Decoder) (b : List Nat),
      Decoder.DecodeInto d b = some (d', .error e) → d'.err = some e) :=
  ⟨fun h => ⟨nextLen_of_err d e h, decode_of_err d e h, fun b => decodeInto_of_err d e b h⟩,
    fun _ h => nextLen_err_stored h, fun _ h => decode_err_stored h,
    fun _ _ h => decodeInto_err_stored h⟩

/-- Witness for C5: a decoder poisoned with the separator-mismatch error and
a nonempty remaining source replays the error on all three entry points with
the state unchanged. -/
theorem decoder_error_latched_witness :
    (⟨[1, 2, 3], defaultSeparator, .big, some .sepMismatch, false, 0⟩ : Decoder).err =
      some .sepMismatch ∧
    Decoder.NextLen ⟨[1, 2, 3], defaultSeparator, .big, some .sepMismatch, false, 0⟩ =
      (⟨[1, 2, 3], defaultSeparator, .big, some .sepMismatch, false, 0⟩, .error .sepMismatch) ∧
    Decoder.Decode ⟨[1, 2, 3], defaultSeparator, .big, some .sepMismatch, false, 0⟩ =
      some (⟨[1, 2, 3], defaultSeparator, .big, some .sepMismatch, false, 0⟩,
        .error .sepMismatch) ∧
    Decoder.DecodeInto ⟨[1, 2, 3], defaultSeparator, .big, some .sepMismatch, false, 0⟩ [9] =
      some (⟨[1, 2, 3], defaultSeparator, .big, some .sepMismatch, false, 0⟩,
        .error .sepMismatch) := by
  have h := (decoder_error_latched
    ⟨[1, 2, 3], defaultSeparator, .big, some .sepMismatch, false, 0⟩ .sepMismatch).1 rfl
  exact ⟨rfl, h.1, h.2.1, h.2.2 [9]⟩

/-- C9: clean end-of-stream is itself latched.  A header read on an exhausted
source returns clean end-of-stream and stores `eof`; and once `eof` is
stored, every entry point returns clean end-of-stream again with the whole
state untouched — in particular no read happens even when the source now
holds more bytes. -/
theorem clean_eof_latched :
    (∀ (sep : List Nat) (o : ByteOrder),
      Decoder.Decode ⟨[], sep, o, none, false, 0⟩ =
        some (⟨[], sep, o, some .eof, false, 0⟩, .error .eof) ∧
      Decoder.NextLen ⟨[], sep, o, none, false, 0⟩ =
        (⟨[], sep, o, some .eof, false, 0⟩, .error .eof)) ∧
    (∀ d : Decoder, d.err = some .eof →
      Decoder.NextLen d = (d, .error .eof) ∧
      Decoder.Decode d = some (d, .error .eof) ∧
      ∀ b : List Nat, Decoder.DecodeInto d b = some (d, .error .eof)) := by
  refine ⟨fun sep o => ⟨decode_eof sep o, ?_⟩,
    fun d h => ⟨nextLen_of_err d .eof h, decode_of_err d .eof h,
      fun b => decodeInto_of_err d .eof b h⟩⟩
  simp only [Decoder.NextLen, readPfx_eof sep [] o rfl]
  rfl

/-- Witness for C9: the empty default-configuration source produces clean
end-of-stream, and a decoder with `eof` stored and a nonempty source (the
source "got more bytes" after the clean end) keeps returning clean
end-of-stream without touching it. -/
theorem clean_eof_latched_witness :
    Decoder.Decode ⟨[], defaultSeparator, .big, none, false, 0⟩ =
      some (⟨[], defaultSeparator, .big, some .eof, false, 0⟩, .error .eof) ∧
    (⟨[5, 6], defaultSeparator, .big, some .eof, false, 0⟩ : Decoder).err = some .eof ∧
    Decoder.NextLen ⟨[5, 6], defaultSeparator, .big, some .eof, false, 0⟩ =
      (⟨[5, 6], defaultSeparator, .big, some .eof, false, 0⟩, .error .eof) ∧
    Decoder.Decode ⟨[5, 6], defaultSeparator, .big, some .eof, false, 0⟩ =
      some (⟨[5, 6], defaultSeparator, .big, some .eof, false, 0⟩, .error .eof) ∧
    Decoder.DecodeInto ⟨[5, 6], defaultSeparator, .big, some .eof, false, 0⟩ [] =
      some (⟨[5, 6], defaultSeparator, .big, some .eof, false, 0⟩, .error .eof) := by
  have h1 := (clean_eof_latched.1 defaultSeparator .big).1
  have h2 := clean_eof_latched.2 ⟨[5, 6], defaultSeparator, .big, some .eof, false, 0⟩ rfl
  exact ⟨h1, rfl, h2.1, h2.2.1, h2.2.2 []⟩

/-- C2 (code bug): the buffer-size guard of `DecodeInto` is reversed — the Go
code tests `d.pendingLen < len(b)` where its own doc comment ("Use NextLen()
to ensure the slice is large enough for the message") and error text
("Buffer not large enough for next message") require `d.pendingLen > len(b)`.
Consequently a 2-byte buffer, large enough for the pending 1-byte payload, is
rejected with the buffer error, while the exact-size buffer succeeds. -/
theorem decodeInto_rejects_larger_buffer :
    Option.map Prod.snd (Decoder.DecodeInto (NewDecoder [] .big [0, 0, 0, 1, 97]) [0, 0]) =
      some (.error .bufTooSmall) ∧
    Option.map Prod.snd (Decoder.DecodeInto (NewDecoder [] .big [0, 0, 0, 1, 97]) [0]) =
      some (.ok [97]) :=
  ⟨rfl, rfl⟩

/-- C10 (code bug): `DecodeInto` is not panic-free.  With a pending frame of
declared length 1 and an empty caller buffer, the reversed size guard
(`pendingLen < len(b)` is false for `1 < 0`) lets control reach the slice
expression `b[:1]`, which is out of range for the empty buffer — the Go
run-time panic, modelled as the `none` result. -/
theorem decodeInto_small_buffer_out_of_range :
    Decoder.DecodeInto (NewDecoder [] .big [0, 0, 0, 1, 97]) [] = none :=
  rfl

/-- C4 (amended): a stream holding a complete header — the decoder's
separator plus a 4-byte length field `b` declaring `L = toUint32 o b` —
followed by strictly fewer than `L` bytes fails with unexpected
end-of-stream (never clean end-of-stream and never a short payload), both
under `Decode` and under `DecodeInto` with a buffer of length exactly `L`.
(A strictly larger buffer instead trips the reversed buffer-size guard
first and yields the buffer error; see the counterexample.) -/
theorem truncated_stream_unexpectedEOF (sep b rest : List Nat) (o : ByteOrder)
    (hb : b.length = 4) (htr : rest.length < toUint32 o b) :
    Option.map Prod.snd (Decoder.Decode (NewDecoder sep o (sep ++ b ++ rest))) =
      some (.error .unexpectedEOF) ∧
    ∀ buf : List Nat, buf.length = toUint32 o b →
      Option.map Prod.snd (Decoder.DecodeInto (NewDecoder sep o (sep ++ b ++ rest)) buf) =
        some (.error .unexpectedEOF) := by
  have hrp := readPfx_frame sep b rest o hb
  constructor
  · show Option.map Prod.snd (Decoder.Decode ⟨sep ++ b ++ rest, sep, o, none, false, 0⟩) =
      some (.error .unexpectedEOF)
    simp only [Decoder.Decode, hrp]
    rw [decodeInto_truncated sep rest (List.replicate (toUint32 o b) 0) o (toUint32 o b)
      (by simp) htr]
    rfl
  · intro buf hbuf
    show Option.map Prod.snd (Decoder.DecodeInto ⟨sep ++ b ++ rest, sep, o, none, false, 0⟩ buf) =
      some (.error .unexpectedEOF)
    rw [decodeInto_after_readPfx buf hrp rfl rfl]
    rw [decodeInto_truncated sep rest buf o (toUint32 o b) hbuf htr]
    rfl

/-- Witness for C4 (amended): no separator, big-endian, header `[0,0,0,2]`
declaring length 2, a single payload byte `[9]`, and the exact-size 2-byte
buffer for `DecodeInto`. -/
theorem truncated_stream_unexpectedEOF_witness :
    ([0, 0, 0, 2] : List Nat).length = 4 ∧
    ([9] : List Nat).length < toUint32 .big [0, 0, 0, 2] ∧
    Option.map Prod.snd (Decoder.Decode (NewDecoder [] .big ([] ++ [0, 0, 0, 2] ++ [9]))) =
      some (.error .unexpectedEOF) ∧
    Option.map Prod.snd
        (Decoder.DecodeInto (NewDecoder [] .big ([] ++ [0, 0, 0, 2] ++ [9])) [0, 0]) =
      some (.error .unexpectedEOF) := by
  have h := truncated_stream_unexpectedEOF [] [0, 0, 0, 2] [9] .big rfl (by decide)
  exact ⟨rfl, by decide, h.1, h.2 [0, 0] (by decide)⟩

/-- C4 counterexample to the claim as stated: the stream `[0,0,0,1]` holds a
complete header declaring payload length 1 and zero payload bytes — a
truncated stream — yet `DecodeInto` with a 2-byte buffer, sufficiently large
for the declared payload, fails with the buffer error instead of unexpected
end-of-stream. -/
theorem truncation_claim_counterexample :
    Option.map Prod.snd (Decoder.DecodeInto (NewDecoder [] .big [0, 0, 0, 1]) [0, 0]) =
      some (.error .bufTooSmall) ∧
    DErr.bufTooSmall ≠ DErr.unexpectedEOF :=
  ⟨rfl, by decide⟩

/-- C3 (amended): encoding a payload `m` with no separator and decoding the
resulting stream with the default separator (big-endian) fails — with
unexpected end-of-stream when `m` is shorter than 4 bytes (the stream is
shorter than the 8 bytes the decoder reads for a header), and with the
separator-mismatch error otherwise — provided `len(m) ≠ 1818586723`, the one
length whose big-endian 4-byte encoding is exactly the default separator
bytes "lenc"; for that length the decoder misreads the stream as a valid
frame (see the counterexample). -/
theorem no_separator_encode_default_decode (m : List Nat)
    (hm : m.length ≤ 4294967295) (hne : m.length ≠ 1818586723) :
    Option.map Prod.snd
        (Decoder.Decode (NewDecoder defaultSeparator .big
          ((Encoder.Encode (NewEncoder [] .big) m).1.sink))) =
      some (.error (if m.length < 4 then DErr.unexpectedEOF else DErr.sepMismatch)) := by
  have hm32 : m.length < 2 ^ 32 := by omega
  rw [Encode_ok (NewEncoder [] .big) m rfl hm]
  show Option.map Prod.snd
      (Decoder.Decode (NewDecoder defaultSeparator .big ([] ++ frame [] .big m))) =
    some (.error (if m.length < 4 then DErr.unexpectedEOF else DErr.sepMismatch))
  have hfr : ([] ++ frame [] .big m : List Nat) = putUint32 .big m.length ++ m := by
    simp [frame]
  rw [hfr]
  by_cases h4 : m.length < 4
  · rw [if_pos h4]
    have hlen : (putUint32 .big m.length ++ m).length < defaultSeparator.length + 4 := by
      rw [List.length_append, putUint32_length]
      simp [defaultSeparator]
      omega
    have hne0 : (putUint32 .big m.length ++ m : List Nat) ≠ [] := by
      intro h
      have := congrArg List.length h
      rw [List.length_append, putUint32_length] at this
      simp at this
    have hrp := readPfx_truncated defaultSeparator (putUint32 .big m.length ++ m) .big hne0 hlen
    rw [show NewDecoder defaultSeparator .big (putUint32 .big m.length ++ m) =
          ⟨putUint32 .big m.length ++ m, defaultSeparator, .big, none, false, 0⟩ from rfl]
    simp only [Decoder.Decode, hrp]
    rfl
  · rw [if_neg h4]
    have hb : ((putUint32 .big m.length ++ m.take 4) : List Nat).length =
        defaultSeparator.length + 4 := by
      rw [List.length_append, putUint32_length, List.length_take]
      simp [defaultSeparator]
      omega
    have hbne : (putUint32 .big m.length ++ m.take 4).take defaultSeparator.length ≠
        defaultSeparator := by
      have ht : (putUint32 .big m.length ++ m.take 4).take defaultSeparator.length =
          putUint32 .big m.length :=
        List.take_left' (by rw [putUint32_length]; rfl)
      rw [ht]
      intro hEq
      apply hne
      have h1 : toUint32 .big (putUint32 .big m.length) = toUint32 .big defaultSeparator := by
        rw [hEq]
      rw [toUint32_putUint32 .big m.length hm32] at h1
      exact h1.trans (by decide)
    have hstream : putUint32 .big m.length ++ m =
        (putUint32 .big m.length ++ m.take 4) ++ m.drop 4 := by
      rw [List.append_assoc, List.take_append_drop]
    rw [hstream]
    have hrp := readPfx_mismatch defaultSeparator (putUint32 .big m.length ++ m.take 4)
      (m.drop 4) .big hb (by decide) hbne
    rw [show NewDecoder defaultSeparator .big
          ((putUint32 .big m.length ++ m.take 4) ++ m.drop 4) =
          ⟨(putUint32 .big m.length ++ m.take 4) ++ m.drop 4,
            defaultSeparator, .big, none, false, 0⟩ from rfl]
    simp only [Decoder.Decode, hrp]
    rfl

/-- Witness for C3 (amended): the empty payload (shorter than 4 bytes)
yields unexpected end-of-stream, and the 16-byte payload of `97`s (the Go
test's payload) yields the separator-mismatch error. -/
theorem no_separator_encode_default_decode_witness :
    (([] : List Nat).length ≤ 4294967295 ∧ ([] : List Nat).length ≠ 1818586723 ∧
      Option.map Prod.snd
          (Decoder.Decode (NewDecoder defaultSeparator .big
            ((Encoder.Encode (NewEncoder [] .big) []).1.sink))) =
        some (.error (if ([] : List Nat).length < 4 then DErr.unexpectedEOF
          else DErr.sepMismatch))) ∧
    ((List.replicate 16 97 : List Nat).length ≤ 4294967295 ∧
      (List.replicate 16 97 : List Nat).length ≠ 1818586723 ∧
      Option.map Prod.snd
          (Decoder.Decode (NewDecoder defaultSeparator .big
            ((Encoder.Encode (NewEncoder [] .big) (List.replicate 16 97)).1.sink))) =
        some (.error (if (List.replicate 16 97 : List Nat).length < 4 then DErr.unexpectedEOF
          else DErr.sepMismatch))) :=
  ⟨⟨by decide, by decide, no_separator_encode_default_decode [] (by decide) (by decide)⟩,
    ⟨by decide, by decide,
      no_separator_encode_default_decode (List.replicate 16 97) (by decide) (by decide)⟩⟩

/-- C3 counterexample to the claim as stated: with no separator on the
encoder and the default separator (big-endian) on the decoder, (i) the empty
payload fails with unexpected end-of-stream, not the separator-mismatch
error; and (ii) the payload of 1818586723 zero bytes — whose big-endian
length field is exactly the separator bytes "lenc" — is silently accepted:
`Decode` succeeds and returns a frame (the empty payload read from the zero
bytes that follow), so the decoder does misinterpret such a stream as a
valid frame. -/
theorem separator_mismatch_counterexample :
    Option.map Prod.snd
        (Decoder.Decode (NewDecoder defaultSeparator .big
          ((Encoder.Encode (NewEncoder [] .big) []).1.sink))) =
      some (.error .unexpectedEOF) ∧
    Option.map Prod.snd
        (Decoder.Decode (NewDecoder defaultSeparator .big
          ((Encoder.Encode (NewEncoder [] .big) (List.replicate 1818586723 0)).1.sink))) =
      some (.ok []) := by
  constructor
  · rfl
  · have hm : (List.replicate 1818586723 0 : List Nat).length ≤ MaxUint32 := by
      rw [List.length_replicate]
      unfold MaxUint32
      omega
    rw [Encode_ok (NewEncoder [] .big) (List.replicate 1818586723 0) rfl hm]
    show Option.map Prod.snd
        (Decoder.Decode (NewDecoder defaultSeparator .big
          ([] ++ frame [] .big (List.replicate 1818586723 0)))) =
      some (.ok [])
    have hfr : ([] ++ frame [] .big (List.replicate 1818586723 0) : List Nat) =
        defaultSeparator ++ [0, 0, 0, 0] ++ List.replicate 1818586719 0 := by
      have hsplit : List.replicate 1818586723 (0 : Nat) =
          List.replicate 4 0 ++ List.replicate 1818586719 0 := by
        have h48 : (1818586723 : Nat) = 4 + 1818586719 := by norm_num
        rw [← List.replicate_add, ← h48]
      simp only [List.nil_append, frame, List.length_replicate]
      rw [hsplit]
      rw [show putUint32 .big 1818586723 = defaultSeparator by decide]
      rw [show (List.replicate 4 (0 : Nat)) = [0, 0, 0, 0] by decide]
      rw [List.append_assoc]
    rw [hfr]
    rw [show NewDecoder defaultSeparator .big
          (defaultSeparator ++ [0, 0, 0, 0] ++ List.replicate 1818586719 0) =
          ⟨defaultSeparator ++ [0, 0, 0, 0] ++ List.replicate 1818586719 0,
            defaultSeparator, .big, none, false, 0⟩ from rfl]
    have hrp := readPfx_frame defaultSeparator [0, 0, 0, 0] (List.replicate 1818586719 0)
      .big rfl
    rw [show toUint32 .big [0, 0, 0, 0] = 0 from rfl] at hrp
    have hdi := decodeInto_pending defaultSeparator [] (List.replicate 1818586719 0)
      (List.replicate 0 0) .big 0 rfl rfl
    rw [List.nil_append] at hdi
    rw [decode_via_pending _ _ _ _ hrp hdi]
    rfl
